import Mathlib

/-!
Verification of the ai-research-assistant core against its specification.

The Python modules `readme_parser.py` and `ai_research_assistant.py` are
shallowly embedded: strings are lists of characters (`Str`), Python dicts
are insertion-ordered association lists with Python's update semantics,
file-system reads are inputs (`Option Str`, with `none` marking a read
that raises an OS error; decode errors never raise because the source
reads with best-effort substitution), and exceptions surface as `Except`.
Character classes (`\s`, `\d`, `str.lower`) are modelled on their ASCII
behaviour, which covers every token the program compares against.
-/

abbrev Str := List Char

/-- Python `\s` / `str.strip` whitespace (ASCII part). -/
def pySpace (c : Char) : Bool :=
  c = ' ' || c = '\t' || c = '\n' || c = '\r' || c = Char.ofNat 11 || c = Char.ofNat 12

/-- Python `str.lower` (ASCII). -/
def lowerStr (s : Str) : Str := s.map Char.toLower

/-- Python `str.lstrip()`. -/
def lstripWS (s : Str) : Str := s.dropWhile pySpace

/-- Python `str.rstrip()`. -/
def rstripWS (s : Str) : Str := (s.reverse.dropWhile pySpace).reverse

/-- Python `str.strip()`. -/
def stripWS (s : Str) : Str := rstripWS (lstripWS s)

/-- Python `str.rstrip("?")`: remove every trailing question mark. -/
def rstripQ (s : Str) : Str := (s.reverse.dropWhile (· = '?')).reverse

/-- Python `s.split("\n")`. -/
def splitLines (s : Str) : List Str := List.splitOn '\n' s

/-- Python `"\n".join(lines)`. -/
def joinLines (lines : List Str) : Str := List.intercalate ['\n'] lines

/-- Python `" ".join(parts)`. -/
def joinSpace (parts : List Str) : Str := List.intercalate [' '] parts

/-- Python `s.split(sep)[0]` for a non-empty separator `sep`. -/
def takeBefore (sep : Str) : Str → Str
  | [] => []
  | c :: rest => if sep.isPrefixOf (c :: rest) then [] else c :: takeBefore sep rest

/-- Python `s.strip(chars)`. -/
def stripChars (chars : List Char) (s : Str) : Str :=
  ((s.dropWhile (chars.contains ·)).reverse.dropWhile (chars.contains ·)).reverse

-- ===========================================================================
-- readme_parser.py : ResearchMetadata and ReadmeParser
-- ===========================================================================

/-- The eight buckets of `ResearchMetadata` (dataclass in readme_parser.py). -/
structure ResearchMetadata where
  research_focus : List Str := []
  research_questions : List Str := []
  technologies : List Str := []
  keywords : List Str := []
  related_papers : List Str := []
  goals : List Str := []
  methodology : List Str := []
  datasets : List Str := []
deriving DecidableEq, Repr

def emptyRM : ResearchMetadata := {}

/-- The eight field names of `ResearchMetadata`, as targets of `SECTION_MAPPING`. -/
inductive RField where
  | research_focus | research_questions | technologies | keywords
  | related_papers | goals | methodology | datasets
deriving DecidableEq, Repr

/-- `getattr(metadata, field_name)` for the bucket fields. -/
def RField.get (m : ResearchMetadata) : RField → List Str
  | .research_focus => m.research_focus
  | .research_questions => m.research_questions
  | .technologies => m.technologies
  | .keywords => m.keywords
  | .related_papers => m.related_papers
  | .goals => m.goals
  | .methodology => m.methodology
  | .datasets => m.datasets

/-- `getattr(metadata, field_name).extend(items)`. -/
def RField.extend (f : RField) (items : List Str) (m : ResearchMetadata) :
    ResearchMetadata :=
  match f with
  | .research_focus => { m with research_focus := m.research_focus ++ items }
  | .research_questions => { m with research_questions := m.research_questions ++ items }
  | .technologies => { m with technologies := m.technologies ++ items }
  | .keywords => { m with keywords := m.keywords ++ items }
  | .related_papers => { m with related_papers := m.related_papers ++ items }
  | .goals => { m with goals := m.goals ++ items }
  | .methodology => { m with methodology := m.methodology ++ items }
  | .datasets => { m with datasets := m.datasets ++ items }

/-- `ReadmeParser.SECTION_MAPPING`, in its declared (dict-literal) order. -/
def SECTION_MAPPING : List (Str × RField) := [
  ("research focus".data, .research_focus),
  ("research area".data, .research_focus),
  ("research domain".data, .research_focus),
  ("focus area".data, .research_focus),
  ("research questions".data, .research_questions),
  ("research problem".data, .research_questions),
  ("key questions".data, .research_questions),
  ("questions".data, .research_questions),
  ("technologies".data, .technologies),
  ("tech stack".data, .technologies),
  ("tools".data, .technologies),
  ("frameworks".data, .technologies),
  ("keywords".data, .keywords),
  ("tags".data, .keywords),
  ("topics".data, .keywords),
  ("related papers".data, .related_papers),
  ("references".data, .related_papers),
  ("papers".data, .related_papers),
  ("literature".data, .related_papers),
  ("goals".data, .goals),
  ("objectives".data, .goals),
  ("aims".data, .goals),
  ("methodology".data, .methodology),
  ("approach".data, .methodology),
  ("methods".data, .methodology),
  ("datasets".data, .datasets),
  ("data sources".data, .datasets),
  ("data".data, .datasets)]

-- ---------------------------------------------------------------------------
-- _extract_sections
-- ---------------------------------------------------------------------------

/-- `re.match(r"^(#{2,3})\s+(.+)$", line)`: `some h` iff the line is a
level-2/3 heading, where `h` is `header_match.group(2).strip()`.
The regex matches exactly when the line starts with 2 or 3 hash marks
followed by a whitespace character and at least one further character;
with the greedy `\s+`/`(.+)` interplay, the stripped capture always equals
the rest of the line with leading whitespace dropped, then stripped. -/
def headerMatch (line : Str) : Option Str :=
  let hashes := line.takeWhile (· = '#')
  let rest := line.drop hashes.length
  if (hashes.length = 2 || hashes.length = 3) &&
     (match rest with
      | c :: _ :: _ => pySpace c
      | _ => false) then
    some (stripWS (rest.dropWhile pySpace))
  else
    none

/-- Python-dict assignment `d[k] = v`: replace in place if the key exists
(keeping its position), otherwise append at the end. -/
def dictSet : List (Str × Str) → Str → Str → List (Str × Str)
  | [], k, v => [(k, v)]
  | (k0, v0) :: rest, k, v =>
    if k0 = k then (k, v) :: rest else (k0, v0) :: dictSet rest k v

/-- Loop state of `_extract_sections`: `(sections, current_header,
current_content)`. `current_header` is `none` for Python `None`; Python
truthiness makes `some []` (empty header) falsy as well. -/
structure SecState where
  sections : List (Str × Str)
  curHeader : Option Str
  curContent : List Str
deriving DecidableEq, Repr

/-- Python truthiness of `current_header` (`None` and `""` are falsy). -/
def headerTruthy : Option Str → Bool
  | none => false
  | some h => h ≠ []

/-- `if current_header: sections[current_header] = "\n".join(...).strip()`. -/
def saveSection (st : SecState) : List (Str × Str) :=
  if headerTruthy st.curHeader then
    dictSet st.sections (st.curHeader.getD []) (stripWS (joinLines st.curContent))
  else
    st.sections

/-- One iteration of the `_extract_sections` line loop. -/
def sectionStep (st : SecState) (line : Str) : SecState :=
  match headerMatch line with
  | some h => { sections := saveSection st, curHeader := some h, curContent := [] }
  | none =>
    if headerTruthy st.curHeader then
      { st with curContent := st.curContent ++ [line] }
    else
      st

/-- `ReadmeParser._extract_sections`. -/
def extractSections (content : Str) : List (Str × Str) :=
  saveSection ((splitLines content).foldl sectionStep ⟨[], none, []⟩)

-- ---------------------------------------------------------------------------
-- _extract_items: the per-line normalisation pipeline
-- ---------------------------------------------------------------------------

def backquote : Char := Char.ofNat 96

/-- `re.sub(r"^[-*+]\s+", "", line)`. -/
def subBullet (l : Str) : Str :=
  match l with
  | c :: c2 :: rest =>
    if (c = '-' || c = '*' || c = '+') && pySpace c2 then
      (c2 :: rest).dropWhile pySpace
    else l
  | _ => l

/-- `re.sub(r"^\d+\.\s+", "", line)`. -/
def subNumbered (l : Str) : Str :=
  let ds := l.takeWhile Char.isDigit
  if ds = [] then l
  else
    match l.drop ds.length with
    | '.' :: c :: rest =>
      if pySpace c then (c :: rest).dropWhile pySpace else l
    | _ => l

/-- `re.sub(r"^>\s+", "", line)`. -/
def subQuote (l : Str) : Str :=
  match l with
  | c :: c2 :: rest =>
    if c = '>' && pySpace c2 then (c2 :: rest).dropWhile pySpace else l
  | _ => l

/-- Leftmost match attempt of `\[([^\]]+)\]\([^\)]+\)` at the head of the
input; on success returns the replacement (`\1`, the link text) and the
remainder of the input after the match. -/
def tryLink : Str → Option (Str × Str)
  | '[' :: rest =>
    let text := rest.takeWhile (· ≠ ']')
    if text = [] then none
    else
      match rest.drop text.length with
      | ']' :: '(' :: rest2 =>
        let url := rest2.takeWhile (· ≠ ')')
        if url = [] then none
        else
          match rest2.drop url.length with
          | ')' :: rest3 => some (text, rest3)
          | _ => none
      | _ => none
  | _ => none

/-- Match attempt for `` `([^`]+)` `` at the head of the input. -/
def tryCode : Str → Option (Str × Str)
  | c :: rest =>
    if c = backquote then
      let text := rest.takeWhile (· ≠ backquote)
      if text = [] then none
      else
        match rest.drop text.length with
        | c2 :: rest2 => if c2 = backquote then some (text, rest2) else none
        | _ => none
    else none
  | _ => none

/-- Match attempt for `\*\*([^\*]+)\*\*` at the head of the input. -/
def tryBold : Str → Option (Str × Str)
  | '*' :: '*' :: rest =>
    let text := rest.takeWhile (· ≠ '*')
    if text = [] then none
    else
      match rest.drop text.length with
      | '*' :: '*' :: rest2 => some (text, rest2)
      | _ => none
  | _ => none

/-- Match attempt for `\*([^\*]+)\*` at the head of the input. -/
def tryItalic : Str → Option (Str × Str)
  | '*' :: rest =>
    let text := rest.takeWhile (· ≠ '*')
    if text = [] then none
    else
      match rest.drop text.length with
      | '*' :: rest2 => some (text, rest2)
      | _ => none
  | _ => none

/-- `re.sub(pattern, replacement-of-capture, s)` as a single left-to-right
scan: at each position try the pattern; on a match emit the capture and
resume after the match, otherwise emit the character and advance by one.
Fuel is the input length; every successful match consumes at least one
character, so the fuel never runs out before the input is exhausted. -/
def subScan (tryM : Str → Option (Str × Str)) : Nat → Str → Str
  | 0, s => s
  | _ + 1, [] => []
  | fuel + 1, c :: cs =>
    match tryM (c :: cs) with
    | some (rep, rest) => rep ++ subScan tryM fuel rest
    | none => c :: subScan tryM fuel cs

def subLinks (s : Str) : Str := subScan tryLink s.length s
def subCode (s : Str) : Str := subScan tryCode s.length s
def subBold (s : Str) : Str := subScan tryBold s.length s
def subItalic (s : Str) : Str := subScan tryItalic s.length s

/-- The body of the `_extract_items` loop for one line: `none` when the
line is dropped (blank, or empty / `#`-prefixed after the transforms),
otherwise the cleaned item. -/
def normLine (line : Str) : Option Str :=
  let l := stripWS line
  if l = [] then none
  else
    let l := subBullet l
    let l := subNumbered l
    let l := subQuote l
    let l := subLinks l
    let l := subCode l
    let l := subBold l
    let l := subItalic l
    let l := stripWS l
    if l ≠ [] && !(['#'].isPrefixOf l) then some l else none

/-- `ReadmeParser._extract_items` (the loop with `items.append`). -/
def extractItems (content : Str) : List Str :=
  (splitLines content).foldl
    (fun items line =>
      match normLine line with
      | some x => items ++ [x]
      | none => items)
    []

-- ---------------------------------------------------------------------------
-- _process_section and _parse_content
-- ---------------------------------------------------------------------------

/-- The `for section_key, field in SECTION_MAPPING.items(): if section_key
in header_lower: ...; break` search loop. -/
def findField : List (Str × RField) → Str → Option RField
  | [], _ => none
  | (k, f) :: rest, hl =>
    if k <:+: hl then some f else findField rest hl

/-- The classifier applied to a raw heading: lower-case, then first
synonym (in declared table order) occurring as a substring. -/
def classify (header : Str) : Option RField :=
  findField SECTION_MAPPING (lowerStr header)

/-- `ReadmeParser._process_section`. -/
def processSection (header content : Str) (m : ResearchMetadata) : ResearchMetadata :=
  match classify header with
  | none => m
  | some f => f.extend (extractItems content) m

/-- `ReadmeParser._parse_content`. -/
def parseContent (content : Str) : ResearchMetadata :=
  (extractSections content).foldl (fun m p => processSection p.1 p.2 m) emptyRM

-- ---------------------------------------------------------------------------
-- extract_research_queries
-- ---------------------------------------------------------------------------

/-- `ReadmeParser.extract_research_queries`, with the Python `append`
loops rendered as left folds over the iterated lists. -/
def extractResearchQueries (m : ResearchMetadata) : List Str :=
  let queries := m.research_focus
  let queries := m.research_questions.foldl
    (fun qs question => qs ++ [stripWS (rstripQ question)]) queries
  let queries :=
    if m.keywords.length ≥ 2 then
      queries ++ [joinSpace (m.keywords.take 3)]
    else queries
  let queries :=
    if m.methodology ≠ [] && m.research_focus ≠ [] then
      (m.methodology.take 2).foldl
        (fun qs method =>
          (m.research_focus.take 2).foldl
            (fun qs focus => qs ++ [method ++ [' '] ++ focus]) qs)
        queries
    else queries
  queries

example : headerMatch ("## Keywords".data) = some ("Keywords".data) := by decide
example : headerMatch ("####x".data) = none := by decide
example : headerMatch ("## ".data) = none := by decide
example : headerMatch ("##   ".data) = some [] := by decide
example : extractItems ("- a\n\n2. b".data) = [['a'], ['b']] := by decide
example : classify ("Research Focus Area".data) = some RField.research_focus := by decide
example : (parseContent ("## Keywords\na\n## Keywords\nb".data)).keywords = [['b']] := by decide
example :
    extractItems ("- - [[t](u)](v)".data ++ [backquote, backquote, 'x', backquote, 'y', backquote]
      ++ "**a*b*".data)
    = [("- [t](v)".data ++ [backquote, 'x', 'y', backquote] ++ "*ab*".data)] := by decide
example :
    extractResearchQueries { emptyRM with research_questions := ["What??".data] }
    = ["What".data] := by decide

-- ===========================================================================
-- ai_research_assistant.py : data model
-- ===========================================================================

/-- `Paper` (frozen dataclass). -/
structure Paper where
  title : Str
  authors : List Str
  abstract : Str
  keywords : List Str
  url : Str
  published_date : Option Str := none
  upvotes : Nat := 0
deriving DecidableEq, Repr

/-- `ProjectMetadata` (dataclass). -/
structure ProjectMetadata where
  name : Str
  keywords : List Str := []
  dependencies : List Str := []
  dev_dependencies : List Str := []
  description : Str := []
  version : Str := []
deriving DecidableEq, Repr

/-- `ProjectAnalysis` (dataclass); the `relevant_papers`/`relevant_models`
fields stay at their empty defaults in `analyze_project` and are omitted. -/
structure ProjectAnalysis where
  project_name : Str
  files_analyzed : Nat
  technologies : List Str := []
  suggestions : List Str := []
  metadata : Option ProjectMetadata := none
  research_metadata : Option ResearchMetadata := none
  imports : List Str := []
  detection_sources : List (Str × List Str) := []
deriving DecidableEq, Repr

-- ===========================================================================
-- File-system boundary
-- ===========================================================================

/-- One file found under the project root by recursive traversal.
`content` is the text `read_text` would return; `none` marks a file whose
read raises an OS error. (Decode errors are not failures: every scanning
read in the source uses `errors='ignore'`.) -/
structure SrcFile where
  name : Str
  content : Option Str
deriving DecidableEq, Repr

/-- The `project` table of a parsed `pyproject.toml`: each field `none`
when absent, mirroring `project_data.get(...)` with its default. -/
structure TomlProject where
  name : Option Str := none
  keywords : Option (List Str) := none
  dependencies : Option (List Str) := none
  devDependencies : Option (List Str) := none
  description : Option Str := none
  version : Option Str := none
deriving DecidableEq, Repr

/-- The three `re.search` capture results on the raw `setup.py` text
(group 1 of the `name= / keywords=[...] / description=` patterns). -/
structure SetupScrape where
  nameMatch : Option Str := none
  keywordsMatch : Option Str := none
  descMatch : Option Str := none
deriving DecidableEq, Repr

/-- A project directory as the program observes it.  `pyproject` is
`none` when `pyproject.toml` is missing or `tomli.load` raises (both are
`return None` in the source); likewise `setupPy` for `setup.py` and
`readme` for `README.md`.  `requirements` is the raw text of
`requirements.txt` when present and readable.  `files` lists every file
under the root in traversal (`rglob`) order. -/
structure ProjectDir where
  dirName : Str
  pyproject : Option TomlProject := none
  setupPy : Option SetupScrape := none
  requirements : Option Str := none
  readme : Option Str := none
  files : List SrcFile := []
deriving DecidableEq, Repr

/-- `*.py` as matched by `rglob("*.py")`: file name ends in `.py`. -/
def isPyName (n : Str) : Bool := ".py".data.isSuffixOf n

/-- The result list of one `self.project_path.rglob("*.py")` call. -/
def pyFiles (d : ProjectDir) : List SrcFile :=
  d.files.filter (fun f => isPyName f.name)

-- ===========================================================================
-- ProjectMetadataExtractor
-- ===========================================================================

def singleQuote : Char := Char.ofNat 39

/-- `ProjectMetadataExtractor.extract_from_pyproject`. -/
def extractFromPyproject (d : ProjectDir) : Option ProjectMetadata :=
  d.pyproject.map (fun t =>
    { name := t.name.getD d.dirName
      keywords := t.keywords.getD []
      dependencies := t.dependencies.getD []
      dev_dependencies := t.devDependencies.getD []
      description := t.description.getD []
      version := t.version.getD [] })

/-- `ProjectMetadataExtractor.extract_from_setup_py`: build metadata from
the three scrape results (`name` falls back to the directory name;
keywords are split on commas and stripped of blanks and quotes). -/
def extractFromSetupPy (d : ProjectDir) : Option ProjectMetadata :=
  d.setupPy.map (fun s =>
    { name := s.nameMatch.getD d.dirName
      keywords :=
        match s.keywordsMatch with
        | none => []
        | some g => (List.splitOn ',' g).map (stripChars [' ', '"', singleQuote])
      description := s.descMatch.getD [] })

/-- `ProjectMetadataExtractor.extract_from_requirements`. -/
def extractFromRequirements (d : ProjectDir) : List Str :=
  match d.requirements with
  | none => []
  | some content =>
    (splitLines content).filterMap (fun line =>
      if stripWS line ≠ [] && !(['#'].isPrefixOf (stripWS line)) then
        some (stripWS (takeBefore ("<=".data) (takeBefore (">=".data) (takeBefore ("==".data) line))))
      else none)

/-- `AIResearchAssistant._extract_project_metadata`: the fixed source
priority pyproject.toml > setup.py > requirements.txt > bare default. -/
def extractProjectMetadata (d : ProjectDir) : ProjectMetadata :=
  match extractFromPyproject d with
  | some m => m
  | none =>
    match extractFromSetupPy d with
    | some m => m
    | none =>
      let deps := extractFromRequirements d
      if deps ≠ [] then
        { name := d.dirName, dependencies := deps }
      else
        { name := d.dirName }

-- ===========================================================================
-- _detect_technologies
-- ===========================================================================

/-- The `tech_mapping` dict literal, in declared order. -/
def TECH_MAPPING : List (Str × Str) := [
  ("numpy".data, "NumPy".data),
  ("pandas".data, "Pandas".data),
  ("matplotlib".data, "Matplotlib".data),
  ("scipy".data, "SciPy".data),
  ("sklearn".data, "Scikit-learn".data),
  ("scikit-learn".data, "Scikit-learn".data),
  ("tensorflow".data, "TensorFlow".data),
  ("torch".data, "PyTorch".data),
  ("pytorch".data, "PyTorch".data),
  ("pydantic".data, "Pydantic".data),
  ("fastapi".data, "FastAPI".data),
  ("flask".data, "Flask".data),
  ("django".data, "Django".data),
  ("streamlit".data, "Streamlit".data),
  ("mcp".data, "Model Context Protocol".data),
  ("hatch".data, "Hatch".data),
  ("pytest".data, "pytest".data),
  ("transformers".data, "Hugging Face Transformers".data),
  ("lstm".data, "LSTM Networks".data),
  ("cnn".data, "Convolutional Neural Networks".data),
  ("random forest".data, "Random Forest".data),
  ("xgboost".data, "XGBoost".data)]

/-- The `detected` dict: technology display name → ordered tag list. -/
abbrev Detected := List (Str × List Str)

/-- Python-dict lookup on an association list (first entry wins; the
dicts built here never hold duplicate keys). -/
def alookup {β : Type} : List (Str × β) → Str → Option β
  | [], _ => none
  | (k, v) :: rest, m => if m = k then some v else alookup rest m

/-- Replace the tag list of the first entry with the given key. -/
def setTags : Detected → Str → List Str → Detected
  | [], _, _ => []
  | (k, v) :: rest, name, tags =>
    if k = name then (k, tags) :: rest else (k, v) :: setTags rest name tags

/-- The repeated source pattern
`if tech_name not in detected: detected[tech_name] = []` followed by
`if tag not in detected[tech_name]: detected[tech_name].append(tag)`. -/
def addTag (d : Detected) (name tag : Str) : Detected :=
  let d1 := match alookup d name with
    | some _ => d
    | none => d ++ [(name, [])]
  match alookup d1 name with
  | some tags => if tag ∈ tags then d1 else setTags d1 name (tags ++ [tag])
  | none => d1

def tagPyprojectKeywords : Str := "pyproject.toml keywords".data
def tagDependencies : Str := "dependencies".data
def tagCodeImports : Str := "code imports".data
def tagReadmeTechnologies : Str := "README technologies".data
def tagReadmeKeywords : Str := "README keywords".data
def tagReadmeResearchFocus : Str := "README research focus".data

/-- The inner `for tech_key, tech_name in tech_mapping.items():` loop for
the substring-matching sources, with haystack `hay` and tag `tag`. -/
def scanMappingInfix (hay : Str) (tag : Str) (d : Detected) : Detected :=
  TECH_MAPPING.foldl
    (fun d p => if p.1 <:+: hay then addTag d p.2 tag else d) d

/-- FONTE 1: `for keyword in metadata.keywords: ...` (substring of the
lowered keyword, tag "pyproject.toml keywords"). -/
def scanKeywords (kws : List Str) (d : Detected) : Detected :=
  kws.foldl (fun d kw => scanMappingInfix (lowerStr kw) tagPyprojectKeywords d) d

/-- `dep.split(">=")[0].split("==")[0].split("[")[0].lower().strip()`. -/
def normDep (dep : Str) : Str :=
  stripWS (lowerStr (takeBefore ['['] (takeBefore ("==".data) (takeBefore (">=".data) dep))))

/-- FONTE 2: dependency scan (exact dict lookup of the normalised name,
tag "dependencies"). -/
def scanDeps (deps : List Str) (d : Detected) : Detected :=
  deps.foldl
    (fun d dep =>
      match alookup TECH_MAPPING (normDep dep) with
      | some techName => addTag d techName tagDependencies
      | none => d) d

/-- FONTE 3: `try: for py_file in rglob("*.py"): ...` — the `except`
around the whole loop means the first unreadable file ends the scan,
keeping what was already detected. -/
def scanCode : List (Option Str) → Detected → Detected
  | [], d => d
  | none :: _, d => d
  | some content :: rest, d =>
    scanCode rest (scanMappingInfix (lowerStr content) tagCodeImports d)

/-- FONTE 4c haystack: `' '.join(research_focus + methodology +
research_questions).lower()`. -/
def allResearchText (r : ResearchMetadata) : Str :=
  lowerStr (joinSpace (r.research_focus ++ r.methodology ++ r.research_questions))

/-- FONTE 4: the three README sub-scans (4a technologies, 4b keywords,
4c research-focus/methodology/questions blob). -/
def scanReadme (r : ResearchMetadata) (d : Detected) : Detected :=
  let d := r.technologies.foldl
    (fun d tech => scanMappingInfix (lowerStr tech) tagReadmeTechnologies d) d
  let d := r.keywords.foldl
    (fun d kw => scanMappingInfix (lowerStr kw) tagReadmeKeywords d) d
  scanMappingInfix (allResearchText r) tagReadmeResearchFocus d

/-- The `detected` dict after the FONTE 1 block (guarded by
`if metadata and metadata.keywords:`). -/
def detectedAfterKw (metadata : Option ProjectMetadata) : Detected :=
  match metadata with
  | some m => if m.keywords ≠ [] then scanKeywords m.keywords [] else []
  | none => []

/-- ... after the FONTE 2 block (guarded by
`if metadata and metadata.dependencies:`). -/
def detectedAfterDeps (metadata : Option ProjectMetadata) : Detected :=
  match metadata with
  | some m =>
    if m.dependencies ≠ [] then scanDeps m.dependencies (detectedAfterKw metadata)
    else detectedAfterKw metadata
  | none => detectedAfterKw metadata

/-- The `detected` dict at the end of the four FONTE blocks of
`_detect_technologies` (the body of the method up to the final sort;
the Python `detected` variable is threaded through the blocks). -/
def detectedOf (metadata : Option ProjectMetadata)
    (researchMetadata : Option ResearchMetadata)
    (pyContents : List (Option Str)) : Detected :=
  match researchMetadata with
  | some r => scanReadme r (scanCode pyContents (detectedAfterDeps metadata))
  | none => scanCode pyContents (detectedAfterDeps metadata)

/-- `AIResearchAssistant._detect_technologies`.  `pyContents` are the
read results of the `rglob("*.py")` files in traversal order. -/
def detectTechnologies (metadata : Option ProjectMetadata)
    (researchMetadata : Option ResearchMetadata)
    (pyContents : List (Option Str)) : List Str × List (Str × List Str) :=
  let d := detectedOf metadata researchMetadata pyContents
  let sortedTechs := List.insertionSort (· ≤ ·) (d.map Prod.fst)
  (sortedTechs, sortedTechs.map (fun t => (t, (alookup d t).getD [])))

-- ===========================================================================
-- _extract_imports and analyze_project
-- ===========================================================================

/-- The import lines of one file: stripped lines starting with
`import ` or `from `. -/
def importLinesOf (content : Str) : List Str :=
  (splitLines content).filterMap (fun line =>
    if ("import ".data.isPrefixOf (stripWS line)) || ("from ".data.isPrefixOf (stripWS line)) then
      some (stripWS line)
    else none)

/-- The `try: for py_file ...` collection loop of `_extract_imports`:
stops at the first unreadable file but keeps what was collected. -/
def collectImports : List (Option Str) → List Str
  | [] => []
  | none :: _ => []
  | some content :: rest => importLinesOf content ++ collectImports rest

/-- `sorted(list(imports))` where `imports` is a set: the sorted list of
the distinct collected lines. -/
def sortedDedup (l : List Str) : List Str :=
  List.insertionSort (· ≤ ·) l.dedup

/-- `AIResearchAssistant._extract_imports`. -/
def extractImports (pyContents : List (Option Str)) : List Str :=
  sortedDedup (collectImports pyContents)

/-- `AIResearchAssistant.analyze_project`.  Each of the three
`rglob("*.py")` call sites filters the directory listing afresh; the
method's local variables (`metadata`, `research_metadata`, the detection
pair) are written out at each use site. -/
def analyzeProject (d : ProjectDir) : ProjectAnalysis :=
  { project_name := (extractProjectMetadata d).name
    files_analyzed := (d.files.filter (fun f => isPyName f.name)).length
    technologies :=
      (detectTechnologies (some (extractProjectMetadata d)) (d.readme.map parseContent)
        ((d.files.filter (fun f => isPyName f.name)).map (·.content))).1
    metadata := some (extractProjectMetadata d)
    research_metadata := d.readme.map parseContent
    imports := extractImports ((d.files.filter (fun f => isPyName f.name)).map (·.content))
    detection_sources :=
      (detectTechnologies (some (extractProjectMetadata d)) (d.readme.map parseContent)
        ((d.files.filter (fun f => isPyName f.name)).map (·.content))).2 }

-- ===========================================================================
-- search_relevant_research, suggest_improvements, generate_report
-- ===========================================================================

def machineLearningArea : Str := "machine_learning".data

/-- The two hard-coded result papers. -/
def mcpPaper : Paper :=
  { title := "Model Context Protocol: Standardizing LLM-Tool Integration".data
    authors := ["Anthropic Research Team".data]
    abstract := "A protocol for standardized integration between LLMs and external tools".data
    keywords := ["MCP".data, "LLM".data, "Tool Integration".data]
    url := "https://modelcontextprotocol.io".data
    upvotes := 100 }

def faultPaper : Paper :=
  { title := "Benchmarking ML and DL for Fault Detection".data
    authors := ["Bhuvan Saravanan".data]
    abstract := "Comparative analysis of ML and DL".data
    keywords := ["Random Forest".data, "LSTM".data, "1D-CNN".data]
    url := "https://hf.co/papers/2505.06295".data
    upvotes := 1 }

/-- `AIResearchAssistant.search_relevant_research`.  The `query_map`
lookup in the source computes a `query` variable that is never used
afterwards (papers are selected on `str(area)` directly), so it is not
modelled.  `area` is a string or `None`; `StrEnum` members are their
value strings. -/
def searchRelevantResearch (analysis : Option ProjectAnalysis)
    (area0 : Option Str) (maxPapers : Nat) : List Paper :=
  let area : Option Str :=
    match area0, analysis with
    | none, some a =>
      match a.research_metadata with
      | some rm =>
        match extractResearchQueries rm with
        | q :: _ => some q
        | [] => none
      | none =>
        match a.metadata with
        | some m =>
          match m.keywords with
          | k :: _ => some k
          | [] => some machineLearningArea
        | none => some machineLearningArea
    | none, none => some machineLearningArea
    | some s, _ => some s
  let areaStr := match area with
    | some s => s
    | none => "None".data
  let papers :=
    if ("mcp".data <:+: lowerStr areaStr) || ("context".data <:+: lowerStr areaStr) then
      [mcpPaper]
    else
      [faultPaper]
  papers.take maxPapers

def preconditionMsg : Str := "Execute analyze_project() primeiro".data

/-- Decimal rendering of a count interpolated into an f-string. -/
def natStr (n : Nat) : Str := Nat.toDigits 10 n

/-- The suggestion list built by `suggest_improvements` once the
precondition holds. -/
def buildSuggestions (a : ProjectAnalysis) : List Str :=
  let suggestions : List Str := []
  let suggestions :=
    if "NumPy".data ∈ a.technologies then
      suggestions ++ ["✨ Considere usar numpy.vectorize para otimizar loops".data]
    else suggestions
  let suggestions :=
    if "Pandas".data ∈ a.technologies then
      suggestions ++ ["📊 Use .query() e .eval() do Pandas para operações mais rápidas".data]
    else suggestions
  let suggestions :=
    if "Model Context Protocol".data ∈ a.technologies then
      suggestions ++ ["🔌 MCP detectado! Considere integrar com múltiplos serviços via MCP".data]
    else suggestions
  let suggestions :=
    match a.research_metadata with
    | none => suggestions
    | some rm =>
      let suggestions :=
        if rm.research_questions ≠ [] then
          suggestions ++ [("❓ ".data ++ natStr rm.research_questions.length ++
            " perguntas de pesquisa identificadas - considere criar experimentos para cada uma".data)]
        else suggestions
      let suggestions :=
        if rm.goals ≠ [] then
          suggestions ++ [("🎯 ".data ++ natStr rm.goals.length ++
            " objetivos definidos - crie métricas específicas para cada".data)]
        else suggestions
      if rm.methodology ≠ [] then
        suggestions ++ ["📋 Metodologia bem definida - documente resultados de cada etapa".data]
      else suggestions
  suggestions ++
    ["🎯 Adicione validação cruzada (k-fold) na avaliação dos modelos".data,
     "📈 Implemente early stopping para evitar overfitting".data]

/-- `AIResearchAssistant.suggest_improvements`: `raise ValueError(...)`
when no analysis has been run, modelled as `Except.error`. -/
def suggestImprovements (analysis : Option ProjectAnalysis) :
    Except Str (List Str) :=
  match analysis with
  | none => .error preconditionMsg
  | some a => .ok (buildSuggestions a)

/-- The data rendered into the report text by `generate_report`; the
f-string rendering itself is pure formatting and is not modelled. -/
structure Report where
  projectName : Str
  filesAnalyzed : Nat
  technologies : List Str
  metadata : Option ProjectMetadata
  researchMetadata : Option ResearchMetadata
  detectionSourcesShown : List (Str × List Str)
  papers : List Paper
  suggestions : List Str
deriving DecidableEq, Repr

/-- `AIResearchAssistant.generate_report`: `raise ValueError(...)` when
no analysis has been run; otherwise gathers papers (via
`search_relevant_research()` with default arguments) and suggestions and
renders the report (the first 5 provenance entries are shown). -/
def generateReport (analysis : Option ProjectAnalysis) : Except Str Report :=
  match analysis with
  | none => .error preconditionMsg
  | some a =>
    let papers := searchRelevantResearch (some a) none 5
    let suggestions := buildSuggestions a
    .ok { projectName := a.project_name
          filesAnalyzed := a.files_analyzed
          technologies := a.technologies
          metadata := a.metadata
          researchMetadata := a.research_metadata
          detectionSourcesShown := a.detection_sources.take 5
          papers := papers
          suggestions := suggestions }

example :
    (detectTechnologies none none [some ("import numpy as np".data)]).1
    = ["NumPy".data] := by decide
example :
    (detectTechnologies none none [some ("import numpy as np".data)]).2
    = [("NumPy".data, [tagCodeImports])] := by decide
example :
    (detectTechnologies none none [none, some ("import numpy as np".data)]).1
    = [] := by decide
example :
    extractImports [some ("import os\nx = 1\nimport os\nfrom a import b".data)]
    = ["from a import b".data, "import os".data] := by decide


-- ===========================================================================
-- Lemmas: the `detected` association list
-- ===========================================================================

/-- The tag-list update a single `addTag` performs on one key. -/
def tagUpd (o : Option (List Str)) (tag : Str) : List Str :=
  match o with
  | none => [tag]
  | some ts => if tag ∈ ts then ts else ts ++ [tag]

theorem tagUpd_none (tag : Str) : tagUpd none tag = [tag] := rfl

theorem tagUpd_some (ts : List Str) (tag : Str) :
    tagUpd (some ts) tag = if tag ∈ ts then ts else ts ++ [tag] := rfl

theorem mem_tagUpd_self (o : Option (List Str)) (tag : Str) : tag ∈ tagUpd o tag := by
  cases o with
  | none => rw [tagUpd_none]; exact List.mem_singleton_self tag
  | some ts =>
    rw [tagUpd_some]
    by_cases h : tag ∈ ts
    · simp [h]
    · simp [h]

theorem tagUpd_idem (o : Option (List Str)) (tag : Str) :
    tagUpd (some (tagUpd o tag)) tag = tagUpd o tag := by
  rw [tagUpd_some, if_pos (mem_tagUpd_self o tag)]

theorem alookup_nil {β : Type} (m : Str) : alookup ([] : List (Str × β)) m = none := rfl

theorem alookup_cons {β : Type} (k : Str) (v : β) (rest : List (Str × β)) (m : Str) :
    alookup ((k, v) :: rest) m = if m = k then some v else alookup rest m := rfl

theorem alookup_append {β : Type} (l1 l2 : List (Str × β)) (m : Str) :
    alookup (l1 ++ l2) m =
      match alookup l1 m with
      | some v => some v
      | none => alookup l2 m := by
  induction l1 with
  | nil => simp [alookup_nil]
  | cons p rest ih =>
    obtain ⟨k, v⟩ := p
    by_cases h : m = k <;> simp [alookup_cons, h, ih]

theorem alookup_setTags_ne {d : Detected} {n m : Str} (ts : List Str) (h : m ≠ n) :
    alookup (setTags d n ts) m = alookup d m := by
  induction d with
  | nil => simp [setTags]
  | cons p rest ih =>
    obtain ⟨k, v⟩ := p
    by_cases hk : k = n
    · subst hk
      simp [setTags, alookup_cons, h]
    · simp [setTags, hk, alookup_cons, ih]

theorem alookup_setTags_self {d : Detected} {n : Str} (ts : List Str)
    (h : (alookup d n).isSome) :
    alookup (setTags d n ts) n = some ts := by
  induction d with
  | nil => simp [alookup_nil] at h
  | cons p rest ih =>
    obtain ⟨k, v⟩ := p
    by_cases hk : k = n
    · subst hk
      simp [setTags, alookup_cons]
    · rw [alookup_cons, if_neg (fun hh => hk hh.symm)] at h
      have hs : setTags ((k, v) :: rest) n ts = (k, v) :: setTags rest n ts := by
        simp [setTags, hk]
      rw [hs, alookup_cons, if_neg (fun hh => hk hh.symm), ih h]

theorem alookup_addTag (d : Detected) (n tag m : Str) :
    alookup (addTag d n tag) m =
      if m = n then some (tagUpd (alookup d n) tag) else alookup d m := by
  cases h : alookup d n with
  | none =>
    have h1 : alookup (d ++ [(n, [])]) n = some [] := by
      simp [alookup_append, h, alookup_cons]
    have hTagNotMem : tag ∉ ([] : List Str) := List.not_mem_nil tag
    simp only [addTag, h, h1]
    simp only [hTagNotMem, if_false]
    by_cases hm : m = n
    · subst hm
      rw [alookup_setTags_self _ (by simp [h1])]
      simp [h, tagUpd]
    · rw [alookup_setTags_ne _ hm, if_neg hm]
      rw [alookup_append]
      cases hd : alookup d m with
      | none => simp [alookup_cons, alookup_nil, hm]
      | some v => simp
  | some ts =>
    simp only [addTag, h]
    by_cases ht : tag ∈ ts
    · simp only [ht, if_true]
      by_cases hm : m = n
      · subst hm
        rw [h, if_pos rfl, tagUpd_some, if_pos ht]
      · rw [if_neg hm]
    · simp only [ht, if_false]
      by_cases hm : m = n
      · subst hm
        rw [alookup_setTags_self _ (by simp [h]), if_pos rfl, tagUpd_some, if_neg ht]
      · rw [alookup_setTags_ne _ hm, if_neg hm]

/-- Generic stage lemma: a left fold whose every step behaves on key `m`
like "add `tag` when `P a` holds" itself behaves like "add `tag` when
some element satisfies `P`". -/
theorem alookup_foldStage {α : Type} (tag m : Str) (F : Detected → α → Detected)
    (P : α → Bool)
    (hF : ∀ d a, alookup (F d a) m =
      if P a then some (tagUpd (alookup d m) tag) else alookup d m) :
    ∀ (l : List α) (d : Detected),
      alookup (l.foldl F d) m =
        if l.any P then some (tagUpd (alookup d m) tag) else alookup d m := by
  intro l
  induction l with
  | nil => simp
  | cons a l ih =>
    intro d
    rw [List.foldl_cons, ih, hF]
    by_cases ha : P a <;> by_cases hl : l.any P <;>
      simp [ha, hl, tagUpd_idem]

theorem alookup_scanMappingInfix (hay tag : Str) (d : Detected) (m : Str) :
    alookup (scanMappingInfix hay tag d) m =
      if TECH_MAPPING.any (fun p => decide (p.1 <:+: hay) && p.2 = m) then
        some (tagUpd (alookup d m) tag)
      else alookup d m := by
  unfold scanMappingInfix
  refine alookup_foldStage tag m _ _ ?_ TECH_MAPPING d
  intro d p
  by_cases hi : p.1 <:+: hay
  · by_cases hm : p.2 = m
    · subst hm
      simp [hi, alookup_addTag]
    · rw [if_pos hi, alookup_addTag, if_neg (fun hh : m = p.2 => hm hh.symm)]
      simp [hi, hm]
  · simp [hi]

/-- Does any entry of the table hit haystack `hay` with display name `m`? -/
def hitB (hay m : Str) : Bool :=
  TECH_MAPPING.any (fun p => decide (p.1 <:+: hay) && p.2 = m)

theorem alookup_scanKeywords (kws : List Str) (d : Detected) (m : Str) :
    alookup (scanKeywords kws d) m =
      if kws.any (fun kw => hitB (lowerStr kw) m) then
        some (tagUpd (alookup d m) tagPyprojectKeywords)
      else alookup d m := by
  unfold scanKeywords
  refine alookup_foldStage _ m _ _ ?_ kws d
  intro d kw
  rw [alookup_scanMappingInfix]
  rfl

theorem alookup_scanDeps (deps : List Str) (d : Detected) (m : Str) :
    alookup (scanDeps deps d) m =
      if deps.any (fun dep => alookup TECH_MAPPING (normDep dep) == some m) then
        some (tagUpd (alookup d m) tagDependencies)
      else alookup d m := by
  unfold scanDeps
  refine alookup_foldStage _ m _ _ ?_ deps d
  intro d dep
  cases h : alookup TECH_MAPPING (normDep dep) with
  | none => simp [h]
  | some t =>
    by_cases hm : t = m
    · subst hm
      simp [h, alookup_addTag]
    · simp only [h]
      rw [alookup_addTag, if_neg (fun hh : m = t => hm hh.symm)]
      simp [h, hm]

/-- The files Scan C actually reads: the longest prefix of readable files. -/
def okFiles : List (Option Str) → List Str
  | [] => []
  | none :: _ => []
  | some c :: rest => c :: okFiles rest

theorem scanCode_eq_foldl (files : List (Option Str)) (d : Detected) :
    scanCode files d =
      (okFiles files).foldl
        (fun d c => scanMappingInfix (lowerStr c) tagCodeImports d) d := by
  induction files generalizing d with
  | nil => rfl
  | cons f rest ih =>
    cases f with
    | none => rfl
    | some c => simp [scanCode, okFiles, ih]

theorem alookup_scanCode (files : List (Option Str)) (d : Detected) (m : Str) :
    alookup (scanCode files d) m =
      if (okFiles files).any (fun c => hitB (lowerStr c) m) then
        some (tagUpd (alookup d m) tagCodeImports)
      else alookup d m := by
  rw [scanCode_eq_foldl]
  refine alookup_foldStage _ m _ _ ?_ (okFiles files) d
  intro d c
  rw [alookup_scanMappingInfix]
  rfl

theorem alookup_listScan (tag : Str) (items : List Str) (d : Detected) (m : Str) :
    alookup
        (items.foldl (fun d x => scanMappingInfix (lowerStr x) tag d) d) m =
      if items.any (fun x => hitB (lowerStr x) m) then
        some (tagUpd (alookup d m) tag)
      else alookup d m := by
  refine alookup_foldStage _ m _ _ ?_ items d
  intro d x
  rw [alookup_scanMappingInfix]
  rfl

theorem mem_keys_iff_isSome {β : Type} (d : List (Str × β)) (m : Str) :
    m ∈ d.map Prod.fst ↔ (alookup d m).isSome := by
  induction d with
  | nil => simp [alookup_nil]
  | cons p rest ih =>
    obtain ⟨k, v⟩ := p
    rw [alookup_cons]
    by_cases h : m = k
    · subst h
      rw [if_pos rfl]
      constructor
      · intro _; rfl
      · intro _
        rw [List.map_cons]
        exact List.mem_cons_self _ _
    · rw [if_neg h]
      simp only [List.map_cons, List.mem_cons]
      constructor
      · rintro (h1 | h1)
        · exact absurd h1 h
        · exact ih.mp h1
      · intro h1
        exact Or.inr (ih.mpr h1)

theorem alookup_some_mem {β : Type} {d : List (Str × β)} {k : Str} {v : β}
    (h : alookup d k = some v) : (k, v) ∈ d := by
  induction d with
  | nil => simp [alookup_nil] at h
  | cons p rest ih =>
    obtain ⟨k0, v0⟩ := p
    rw [alookup_cons] at h
    by_cases hk : k = k0
    · rw [if_pos hk] at h
      obtain rfl := hk
      simp_all
    · rw [if_neg hk] at h
      exact List.mem_cons_of_mem _ (ih h)

theorem map_fst_setTags (d : Detected) (n : Str) (ts : List Str) :
    (setTags d n ts).map Prod.fst = d.map Prod.fst := by
  induction d with
  | nil => simp [setTags]
  | cons p rest ih =>
    obtain ⟨k, v⟩ := p
    by_cases hk : k = n <;> simp [setTags, hk, ih]

theorem mem_setTags {d : Detected} {n : Str} {ts : List Str} {p : Str × List Str}
    (h : p ∈ setTags d n ts) : p ∈ d ∨ p = (n, ts) := by
  induction d with
  | nil => simp [setTags] at h
  | cons q rest ih =>
    obtain ⟨k, v⟩ := q
    by_cases hk : k = n
    · subst hk
      rw [setTags, if_pos rfl] at h
      rcases List.mem_cons.mp h with h1 | h1
      · right; exact h1
      · left; exact List.mem_cons_of_mem _ h1
    · rw [setTags, if_neg hk] at h
      rcases List.mem_cons.mp h with h1 | h1
      · left; exact h1 ▸ List.mem_cons_self _ _
      · rcases ih h1 with h2 | h2
        · left; exact List.mem_cons_of_mem _ h2
        · right; exact h2

/-- The structural invariant of the `detected` dict: unique keys, keys
drawn from the display-name range of the lookup table, and duplicate-free
tag lists. -/
def DetInv (d : Detected) : Prop :=
  (d.map Prod.fst).Nodup ∧
  ∀ p ∈ d, p.1 ∈ TECH_MAPPING.map Prod.snd ∧ p.2.Nodup

theorem DetInv_nil : DetInv [] := by
  constructor
  · simp
  · intro p hp; simp at hp

theorem DetInv_addTag {d : Detected} (h : DetInv d) {n : Str}
    (hn : n ∈ TECH_MAPPING.map Prod.snd) (tag : Str) : DetInv (addTag d n tag) := by
  obtain ⟨hkeys, hent⟩ := h
  cases hl : alookup d n with
  | none =>
    have h1 : alookup (d ++ [(n, [])]) n = some [] := by
      simp [alookup_append, hl, alookup_cons]
    have hTagNotMem : tag ∉ ([] : List Str) := List.not_mem_nil tag
    have hkeys1 : ((d ++ [(n, [])]).map Prod.fst).Nodup := by
      rw [List.map_append]
      apply List.Nodup.append hkeys (by simp)
      intro a ha hb
      simp at hb
      subst hb
      rw [mem_keys_iff_isSome, hl] at ha
      simp at ha
    have hent1 : ∀ p ∈ d ++ [(n, [])], p.1 ∈ TECH_MAPPING.map Prod.snd ∧ p.2.Nodup := by
      intro p hp
      rcases List.mem_append.mp hp with hp | hp
      · exact hent p hp
      · simp at hp
        subst hp
        exact ⟨hn, List.nodup_nil⟩
    simp only [addTag, hl, h1, hTagNotMem, if_false]
    constructor
    · rw [map_fst_setTags]; exact hkeys1
    · intro p hp
      rcases mem_setTags hp with hp | hp
      · exact hent1 p hp
      · subst hp
        exact ⟨hn, by simp⟩
  | some ts =>
    simp only [addTag, hl]
    by_cases ht : tag ∈ ts
    · simp only [ht, if_true]
      exact ⟨hkeys, hent⟩
    · simp only [ht, if_false]
      have hmem : (n, ts) ∈ d := alookup_some_mem hl
      have hts : ts.Nodup := (hent _ hmem).2
      constructor
      · rw [map_fst_setTags]; exact hkeys
      · intro p hp
        rcases mem_setTags hp with hp | hp
        · exact hent p hp
        · subst hp
          refine ⟨hn, ?_⟩
          rw [List.nodup_append]
          refine ⟨hts, List.nodup_singleton _, ?_⟩
          intro a ha hb
          simp at hb
          subst hb
          exact ht ha

theorem foldl_preserve {α β : Type} (P : β → Prop) (F : β → α → β) (l : List α)
    (hstep : ∀ b a, a ∈ l → P b → P (F b a)) :
    ∀ b, P b → P (l.foldl F b) := by
  induction l with
  | nil => intro b hb; simpa using hb
  | cons a l ih =>
    intro b hb
    rw [List.foldl_cons]
    exact ih (fun b a ha hb => hstep b a (List.mem_cons_of_mem _ ha) hb) _
      (hstep b a (List.mem_cons_self _ _) hb)

theorem DetInv_scanMappingInfix (hay tag : Str) {d : Detected} (h : DetInv d) :
    DetInv (scanMappingInfix hay tag d) := by
  unfold scanMappingInfix
  refine foldl_preserve DetInv _ TECH_MAPPING ?_ d h
  intro b p hp hb
  by_cases hi : p.1 <:+: hay
  · rw [if_pos hi]
    exact DetInv_addTag hb (List.mem_map_of_mem Prod.snd hp) tag
  · rw [if_neg hi]
    exact hb

theorem DetInv_listScan (tag : Str) (items : List Str) {d : Detected} (h : DetInv d) :
    DetInv (items.foldl (fun d x => scanMappingInfix (lowerStr x) tag d) d) := by
  refine foldl_preserve DetInv _ items ?_ d h
  intro b x _ hb
  exact DetInv_scanMappingInfix _ _ hb

theorem DetInv_scanKeywords (kws : List Str) {d : Detected} (h : DetInv d) :
    DetInv (scanKeywords kws d) :=
  DetInv_listScan tagPyprojectKeywords kws h

theorem DetInv_scanDeps (deps : List Str) {d : Detected} (h : DetInv d) :
    DetInv (scanDeps deps d) := by
  unfold scanDeps
  refine foldl_preserve DetInv _ deps ?_ d h
  intro b dep _ hb
  cases hdl : alookup TECH_MAPPING (normDep dep) with
  | none => simpa [hdl] using hb
  | some t =>
    simp only [hdl]
    refine DetInv_addTag hb ?_ tagDependencies
    have := alookup_some_mem hdl
    exact List.mem_map_of_mem Prod.snd this

theorem DetInv_scanCode (files : List (Option Str)) {d : Detected} (h : DetInv d) :
    DetInv (scanCode files d) := by
  rw [scanCode_eq_foldl]
  exact DetInv_listScan tagCodeImports (okFiles files) h

theorem DetInv_scanReadme (r : ResearchMetadata) {d : Detected} (h : DetInv d) :
    DetInv (scanReadme r d) := by
  unfold scanReadme
  exact DetInv_scanMappingInfix _ _
    (DetInv_listScan tagReadmeKeywords r.keywords
      (DetInv_listScan tagReadmeTechnologies r.technologies h))

theorem DetInv_detectedAfterDeps (md : Option ProjectMetadata) :
    DetInv (detectedAfterDeps md) := by
  have h1 : DetInv (detectedAfterKw md) := by
    unfold detectedAfterKw
    cases md with
    | none => exact DetInv_nil
    | some m =>
      show DetInv (if m.keywords ≠ [] then scanKeywords m.keywords [] else [])
      by_cases hk : m.keywords ≠ []
      · rw [if_pos hk]; exact DetInv_scanKeywords _ DetInv_nil
      · rw [if_neg hk]; exact DetInv_nil
  unfold detectedAfterDeps
  cases md with
  | none => exact h1
  | some m =>
    show DetInv (if m.dependencies ≠ [] then
      scanDeps m.dependencies (detectedAfterKw (some m)) else detectedAfterKw (some m))
    by_cases hd : m.dependencies ≠ []
    · rw [if_pos hd]; exact DetInv_scanDeps _ h1
    · rw [if_neg hd]; exact h1

theorem DetInv_detectedOf (md : Option ProjectMetadata) (rm : Option ResearchMetadata)
    (files : List (Option Str)) : DetInv (detectedOf md rm files) := by
  unfold detectedOf
  cases rm with
  | none => exact DetInv_scanCode _ (DetInv_detectedAfterDeps md)
  | some r => exact DetInv_scanReadme _ (DetInv_scanCode _ (DetInv_detectedAfterDeps md))

-- ===========================================================================
-- Closed form of the detected dict on each key
-- ===========================================================================

/-- What one source block does to one key of the detected dict. -/
def stepTag (b : Bool) (tag : Str) (o : Option (List Str)) : Option (List Str) :=
  if b then some (tagUpd o tag) else o

/-- FONTE 1 hits `t`? -/
def matchKwB (md : Option ProjectMetadata) (t : Str) : Bool :=
  match md with
  | some m => m.keywords.any (fun kw => hitB (lowerStr kw) t)
  | none => false

/-- FONTE 2 hits `t`? -/
def matchDepB (md : Option ProjectMetadata) (t : Str) : Bool :=
  match md with
  | some m => m.dependencies.any (fun dep => alookup TECH_MAPPING (normDep dep) == some t)
  | none => false

/-- FONTE 3 hits `t`? (over the readable prefix of the file list) -/
def matchCodeB (files : List (Option Str)) (t : Str) : Bool :=
  (okFiles files).any (fun c => hitB (lowerStr c) t)

/-- FONTE 4a hits `t`? -/
def matchRTechB (rm : Option ResearchMetadata) (t : Str) : Bool :=
  match rm with
  | some r => r.technologies.any (fun x => hitB (lowerStr x) t)
  | none => false

/-- FONTE 4b hits `t`? -/
def matchRKwB (rm : Option ResearchMetadata) (t : Str) : Bool :=
  match rm with
  | some r => r.keywords.any (fun x => hitB (lowerStr x) t)
  | none => false

/-- FONTE 4c hits `t`? -/
def matchRTextB (rm : Option ResearchMetadata) (t : Str) : Bool :=
  match rm with
  | some r => hitB (allResearchText r) t
  | none => false

theorem alookup_scanReadme (r : ResearchMetadata) (d : Detected) (t : Str) :
    alookup (scanReadme r d) t =
      stepTag (hitB (allResearchText r) t) tagReadmeResearchFocus
        (stepTag (r.keywords.any (fun x => hitB (lowerStr x) t)) tagReadmeKeywords
          (stepTag (r.technologies.any (fun x => hitB (lowerStr x) t))
            tagReadmeTechnologies (alookup d t))) := by
  unfold scanReadme
  rw [alookup_scanMappingInfix, alookup_listScan, alookup_listScan]
  rfl

theorem alookup_detectedAfterKw (md : Option ProjectMetadata) (t : Str) :
    alookup (detectedAfterKw md) t =
      stepTag (matchKwB md t) tagPyprojectKeywords none := by
  unfold detectedAfterKw
  cases md with
  | none => rfl
  | some m =>
    show alookup (if m.keywords ≠ [] then scanKeywords m.keywords [] else []) t = _
    by_cases hk : m.keywords ≠ []
    · rw [if_pos hk, alookup_scanKeywords]
      rfl
    · rw [if_neg hk]
      simp only [ne_eq, not_not] at hk
      simp [matchKwB, hk, stepTag, alookup_nil]

theorem alookup_detectedAfterDeps (md : Option ProjectMetadata) (t : Str) :
    alookup (detectedAfterDeps md) t =
      stepTag (matchDepB md t) tagDependencies
        (stepTag (matchKwB md t) tagPyprojectKeywords none) := by
  unfold detectedAfterDeps
  cases md with
  | none => rw [← alookup_detectedAfterKw]; rfl
  | some m =>
    show alookup (if m.dependencies ≠ [] then
      scanDeps m.dependencies (detectedAfterKw (some m)) else detectedAfterKw (some m)) t = _
    by_cases hd : m.dependencies ≠ []
    · rw [if_pos hd, alookup_scanDeps, alookup_detectedAfterKw]
      rfl
    · rw [if_neg hd, alookup_detectedAfterKw]
      simp only [ne_eq, not_not] at hd
      simp [matchDepB, hd, stepTag]

/-- The value of the detected dict on any key, as a function of the six
per-source hit tests. -/
theorem alookup_detectedOf (md : Option ProjectMetadata) (rm : Option ResearchMetadata)
    (files : List (Option Str)) (t : Str) :
    alookup (detectedOf md rm files) t =
      stepTag (matchRTextB rm t) tagReadmeResearchFocus
        (stepTag (matchRKwB rm t) tagReadmeKeywords
          (stepTag (matchRTechB rm t) tagReadmeTechnologies
            (stepTag (matchCodeB files t) tagCodeImports
              (stepTag (matchDepB md t) tagDependencies
                (stepTag (matchKwB md t) tagPyprojectKeywords none))))) := by
  unfold detectedOf
  cases rm with
  | none =>
    show alookup (scanCode files (detectedAfterDeps md)) t = _
    rw [alookup_scanCode, alookup_detectedAfterDeps]
    rfl
  | some r =>
    show alookup (scanReadme r (scanCode files (detectedAfterDeps md))) t = _
    rw [alookup_scanReadme, alookup_scanCode, alookup_detectedAfterDeps]
    rfl

theorem isSome_stepTag (b : Bool) (tag : Str) (o : Option (List Str)) :
    (stepTag b tag o).isSome = (b || o.isSome) := by
  cases b <;> simp [stepTag]

/-- Membership in the detected key set = some source hit the key. -/
theorem mem_keys_detectedOf (md : Option ProjectMetadata) (rm : Option ResearchMetadata)
    (files : List (Option Str)) (t : Str) :
    t ∈ (detectedOf md rm files).map Prod.fst ↔
      (matchKwB md t || matchDepB md t || matchCodeB files t ||
       matchRTechB rm t || matchRKwB rm t || matchRTextB rm t) = true := by
  rw [mem_keys_iff_isSome, alookup_detectedOf]
  simp only [isSome_stepTag, Option.isSome_none, Bool.or_false, Bool.or_eq_true]
  tauto

theorem hitB_iff (hay t : Str) :
    hitB hay t = true ↔ ∃ p ∈ TECH_MAPPING, p.1 <:+: hay ∧ p.2 = t := by
  simp [hitB, List.any_eq_true, Bool.and_eq_true, decide_eq_true_eq]

/-- "The key was matched by some scan", spelled out from the spec's
description of the four sources (Scan A keywords, Scan B dependencies,
Scan C code, Scan D technologies/keywords/research blob). -/
def matchedTech (md : Option ProjectMetadata) (rm : Option ResearchMetadata)
    (files : List (Option Str)) (t : Str) : Prop :=
  (∃ m, md = some m ∧ ∃ kw ∈ m.keywords,
    ∃ p ∈ TECH_MAPPING, p.1 <:+: lowerStr kw ∧ p.2 = t) ∨
  (∃ m, md = some m ∧ ∃ dep ∈ m.dependencies,
    alookup TECH_MAPPING (normDep dep) = some t) ∨
  (∃ c ∈ okFiles files, ∃ p ∈ TECH_MAPPING, p.1 <:+: lowerStr c ∧ p.2 = t) ∨
  (∃ r, rm = some r ∧ ∃ x ∈ r.technologies,
    ∃ p ∈ TECH_MAPPING, p.1 <:+: lowerStr x ∧ p.2 = t) ∨
  (∃ r, rm = some r ∧ ∃ x ∈ r.keywords,
    ∃ p ∈ TECH_MAPPING, p.1 <:+: lowerStr x ∧ p.2 = t) ∨
  (∃ r, rm = some r ∧ ∃ p ∈ TECH_MAPPING, p.1 <:+: allResearchText r ∧ p.2 = t)

theorem matchKwB_iff (md : Option ProjectMetadata) (t : Str) :
    matchKwB md t = true ↔
      ∃ m, md = some m ∧ ∃ kw ∈ m.keywords,
        ∃ p ∈ TECH_MAPPING, p.1 <:+: lowerStr kw ∧ p.2 = t := by
  cases md <;> simp [matchKwB, List.any_eq_true, hitB_iff]

theorem matchDepB_iff (md : Option ProjectMetadata) (t : Str) :
    matchDepB md t = true ↔
      ∃ m, md = some m ∧ ∃ dep ∈ m.dependencies,
        alookup TECH_MAPPING (normDep dep) = some t := by
  cases md <;> simp [matchDepB, List.any_eq_true, beq_iff_eq]

theorem matchCodeB_iff (files : List (Option Str)) (t : Str) :
    matchCodeB files t = true ↔
      ∃ c ∈ okFiles files, ∃ p ∈ TECH_MAPPING, p.1 <:+: lowerStr c ∧ p.2 = t := by
  simp [matchCodeB, List.any_eq_true, hitB_iff]

theorem matchRTechB_iff (rm : Option ResearchMetadata) (t : Str) :
    matchRTechB rm t = true ↔
      ∃ r, rm = some r ∧ ∃ x ∈ r.technologies,
        ∃ p ∈ TECH_MAPPING, p.1 <:+: lowerStr x ∧ p.2 = t := by
  cases rm <;> simp [matchRTechB, List.any_eq_true, hitB_iff]

theorem matchRKwB_iff (rm : Option ResearchMetadata) (t : Str) :
    matchRKwB rm t = true ↔
      ∃ r, rm = some r ∧ ∃ x ∈ r.keywords,
        ∃ p ∈ TECH_MAPPING, p.1 <:+: lowerStr x ∧ p.2 = t := by
  cases rm <;> simp [matchRKwB, List.any_eq_true, hitB_iff]

theorem matchRTextB_iff (rm : Option ResearchMetadata) (t : Str) :
    matchRTextB rm t = true ↔
      ∃ r, rm = some r ∧ ∃ p ∈ TECH_MAPPING, p.1 <:+: allResearchText r ∧ p.2 = t := by
  cases rm <;> simp [matchRTextB, hitB_iff]

/-- C1: For every input, the Technology Detector maps each display name
to at most one entry (provenance keys are duplicate-free and coincide
with the technology list), the technology list is exactly the set of
matched display names sorted lexicographically ascending, it is a subset
of the lookup table's display-name range, and each provenance tag occurs
at most once per technology however many individual matches contributed
it. -/
theorem detect_technologies_result_invariants
    (md : Option ProjectMetadata) (rm : Option ResearchMetadata)
    (files : List (Option Str)) :
    (detectTechnologies md rm files).1.Nodup ∧
    List.Sorted (· ≤ ·) (detectTechnologies md rm files).1 ∧
    (detectTechnologies md rm files).2.map Prod.fst = (detectTechnologies md rm files).1 ∧
    (∀ t ∈ (detectTechnologies md rm files).1, t ∈ TECH_MAPPING.map Prod.snd) ∧
    (∀ pr ∈ (detectTechnologies md rm files).2, pr.2.Nodup) ∧
    (∀ t, t ∈ (detectTechnologies md rm files).1 ↔ matchedTech md rm files t) := by
  have hInv := DetInv_detectedOf md rm files
  obtain ⟨hkeys, hent⟩ := hInv
  have hperm : ((detectedOf md rm files).map Prod.fst).Perm
      (List.insertionSort (· ≤ ·) ((detectedOf md rm files).map Prod.fst)) :=
    (List.perm_insertionSort _ _).symm
  have htech : (detectTechnologies md rm files).1 =
      List.insertionSort (· ≤ ·) ((detectedOf md rm files).map Prod.fst) := rfl
  have hsrcs : (detectTechnologies md rm files).2 =
      (detectTechnologies md rm files).1.map
        (fun t => (t, (alookup (detectedOf md rm files) t).getD [])) := rfl
  have hmemkeys : ∀ t, t ∈ (detectTechnologies md rm files).1 ↔
      t ∈ (detectedOf md rm files).map Prod.fst := by
    intro t
    rw [htech]
    exact ⟨fun h => hperm.mem_iff.mpr h, fun h => hperm.mem_iff.mp h⟩
  refine ⟨?_, ?_, ?_, ?_, ?_, ?_⟩
  · rw [htech]
    exact hperm.nodup_iff.mp hkeys
  · rw [htech]
    exact List.sorted_insertionSort _ _
  · rw [hsrcs, List.map_map]
    exact List.map_id _
  · intro t ht
    rcases List.mem_map.mp ((hmemkeys t).mp ht) with ⟨p, hp, hpt⟩
    subst hpt
    exact (hent p hp).1
  · intro pr hpr
    rw [hsrcs] at hpr
    rcases List.mem_map.mp hpr with ⟨t, ht, hpt⟩
    have hk := (hmemkeys t).mp ht
    rw [mem_keys_iff_isSome] at hk
    cases hl : alookup (detectedOf md rm files) t with
    | none => rw [hl] at hk; simp at hk
    | some ts =>
      have hmem := alookup_some_mem hl
      have : pr = (t, ts) := by rw [← hpt, hl]; rfl
      rw [this]
      exact (hent _ hmem).2
  · intro t
    rw [hmemkeys t, mem_keys_detectedOf]
    simp only [Bool.or_eq_true]
    rw [matchKwB_iff, matchDepB_iff, matchCodeB_iff, matchRTechB_iff,
      matchRKwB_iff, matchRTextB_iff]
    unfold matchedTech
    simp only [or_assoc]

-- ===========================================================================
-- Order-independence of the analysis over the file listing
-- ===========================================================================

theorem boolEqOfIff {a b : Bool} (h : (a = true) ↔ (b = true)) : a = b := by
  cases a <;> cases b <;> simp_all

theorem perm_any {α : Type} {l1 l2 : List α} (p : α → Bool) (h : l1.Perm l2) :
    l1.any p = l2.any p := by
  refine boolEqOfIff ?_
  simp only [List.any_eq_true]
  exact ⟨fun ⟨a, ha, hp⟩ => ⟨a, h.mem_iff.mp ha, hp⟩,
    fun ⟨a, ha, hp⟩ => ⟨a, h.mem_iff.mpr ha, hp⟩⟩

theorem okFiles_allSome : ∀ {files : List (Option Str)},
    (∀ c ∈ files, c.isSome) → okFiles files = files.filterMap id := by
  intro files
  induction files with
  | nil => intro _; rfl
  | cons f rest ih =>
    intro h
    cases f with
    | none =>
      have := h none (List.mem_cons_self _ _)
      simp at this
    | some c =>
      rw [List.filterMap_cons]
      simp only [id]
      rw [okFiles]
      rw [ih (fun c hc => h c (List.mem_cons_of_mem _ hc))]

theorem matchCodeB_perm {files files' : List (Option Str)} (t : Str)
    (h : files.Perm files') (hr : ∀ c ∈ files, c.isSome) :
    matchCodeB files t = matchCodeB files' t := by
  have hr' : ∀ c ∈ files', c.isSome := fun c hc => hr c (h.mem_iff.mpr hc)
  unfold matchCodeB
  rw [okFiles_allSome hr, okFiles_allSome hr']
  exact perm_any _ (h.filterMap id)

theorem detect_technologies_perm (md : Option ProjectMetadata)
    (rm : Option ResearchMetadata) {files files' : List (Option Str)}
    (h : files.Perm files') (hr : ∀ c ∈ files, c.isSome) :
    detectTechnologies md rm files = detectTechnologies md rm files' := by
  have hlook : ∀ t, alookup (detectedOf md rm files) t =
      alookup (detectedOf md rm files') t := by
    intro t
    rw [alookup_detectedOf, alookup_detectedOf, matchCodeB_perm t h hr]
  have hmem : ∀ t, t ∈ (detectedOf md rm files).map Prod.fst ↔
      t ∈ (detectedOf md rm files').map Prod.fst := by
    intro t
    rw [mem_keys_iff_isSome, mem_keys_iff_isSome, hlook]
  have hkperm : ((detectedOf md rm files).map Prod.fst).Perm
      ((detectedOf md rm files').map Prod.fst) :=
    (List.perm_ext_iff_of_nodup (DetInv_detectedOf md rm files).1
      (DetInv_detectedOf md rm files').1).mpr hmem
  have hsort : List.insertionSort (· ≤ ·) ((detectedOf md rm files).map Prod.fst) =
      List.insertionSort (· ≤ ·) ((detectedOf md rm files').map Prod.fst) := by
    refine List.eq_of_perm_of_sorted ?_
      (List.sorted_insertionSort _ _) (List.sorted_insertionSort _ _)
    exact (List.perm_insertionSort _ _).trans
      (hkperm.trans (List.perm_insertionSort _ _).symm)
  show (_, _) = (_, _)
  rw [hsort]
  refine congrArg _ ?_
  refine List.map_congr_left ?_
  intro t _
  rw [hlook]

theorem mem_collectImports (a : Str) : ∀ (files : List (Option Str)),
    a ∈ collectImports files ↔ ∃ c ∈ okFiles files, a ∈ importLinesOf c := by
  intro files
  induction files with
  | nil => simp [collectImports, okFiles]
  | cons f rest ih =>
    cases f with
    | none => simp [collectImports, okFiles]
    | some c =>
      rw [collectImports, okFiles]
      simp only [List.mem_append, List.mem_cons, ih]
      constructor
      · rintro (h | ⟨x, hx, hax⟩)
        · exact ⟨c, Or.inl rfl, h⟩
        · exact ⟨x, Or.inr hx, hax⟩
      · rintro ⟨x, hx | hx, hax⟩
        · subst hx; exact Or.inl hax
        · exact Or.inr ⟨x, hx, hax⟩

theorem sortedDedup_congr {l1 l2 : List Str} (h : ∀ a, a ∈ l1 ↔ a ∈ l2) :
    sortedDedup l1 = sortedDedup l2 := by
  unfold sortedDedup
  refine List.eq_of_perm_of_sorted ?_
    (List.sorted_insertionSort _ _) (List.sorted_insertionSort _ _)
  refine (List.perm_insertionSort _ _).trans
    (List.Perm.trans ?_ (List.perm_insertionSort _ _).symm)
  refine (List.perm_ext_iff_of_nodup (List.nodup_dedup l1) (List.nodup_dedup l2)).mpr ?_
  intro a
  rw [List.mem_dedup, List.mem_dedup]
  exact h a

theorem extractImports_perm {files files' : List (Option Str)}
    (h : files.Perm files') (hr : ∀ c ∈ files, c.isSome) :
    extractImports files = extractImports files' := by
  have hr' : ∀ c ∈ files', c.isSome := fun c hc => hr c (h.mem_iff.mpr hc)
  unfold extractImports
  refine sortedDedup_congr ?_
  intro a
  rw [mem_collectImports, mem_collectImports, okFiles_allSome hr, okFiles_allSome hr']
  constructor
  · rintro ⟨c, hc, hac⟩
    exact ⟨c, ((h.filterMap id).mem_iff).mp hc, hac⟩
  · rintro ⟨c, hc, hac⟩
    exact ⟨c, ((h.filterMap id).mem_iff).mpr hc, hac⟩

/-- C9: the Analysis Orchestrator's output is a function of the set of
(file, content) pairs alone: re-enumerating the same readable directory
in any other order yields the same `ProjectAnalysis` — technologies,
provenance map, file count and deduplicated sorted import list included.
Together with the purity of the embedding (equal inputs give equal
outputs definitionally), this is two-run determinism over identical
file-system input. -/
theorem analyze_project_deterministic (d : ProjectDir) (files' : List SrcFile)
    (hperm : d.files.Perm files') (hread : ∀ f ∈ d.files, f.content.isSome) :
    analyzeProject d = analyzeProject { d with files := files' } := by
  have hfp : (d.files.filter (fun f => isPyName f.name)).Perm
      (files'.filter (fun f => isPyName f.name)) := hperm.filter _
  have hcp : ((d.files.filter (fun f => isPyName f.name)).map (·.content)).Perm
      ((files'.filter (fun f => isPyName f.name)).map (·.content)) := hfp.map _
  have hr : ∀ c ∈ (d.files.filter (fun f => isPyName f.name)).map (·.content),
      c.isSome := by
    intro c hc
    rcases List.mem_map.mp hc with ⟨f, hf, rfl⟩
    exact hread f (List.mem_of_mem_filter hf)
  have hdet := detect_technologies_perm (some (extractProjectMetadata d))
    (d.readme.map parseContent) hcp hr
  have himp := extractImports_perm hcp hr
  show ProjectAnalysis.mk _ _ _ _ _ _ _ _ = ProjectAnalysis.mk _ _ _ _ _ _ _ _
  rw [ProjectAnalysis.mk.injEq]
  refine ⟨rfl, hfp.length_eq, ?_, rfl, rfl, rfl, himp, ?_⟩
  · rw [hdet]
    rfl
  · rw [hdet]
    rfl

-- ===========================================================================
-- Scan C failure behaviour (C7) and the *.py boundary (C10)
-- ===========================================================================

/-- Scan C as the specification's words describe it, for comparison:
"unreadable files are skipped with a warning, not fatal" — skip the
offending file and continue over the remaining files. -/
def scanCodeSpecC7 : List (Option Str) → Detected → Detected
  | [], d => d
  | none :: rest, d => scanCodeSpecC7 rest d
  | some c :: rest, d =>
    scanCodeSpecC7 rest (scanMappingInfix (lowerStr c) tagCodeImports d)

theorem scanCode_takeWhile (files : List (Option Str)) (d : Detected) :
    scanCode files d = scanCode (files.takeWhile Option.isSome) d := by
  induction files generalizing d with
  | nil => rfl
  | cons f rest ih =>
    cases f with
    | none => rfl
    | some c =>
      have ht : (some c :: rest).takeWhile Option.isSome
          = some c :: rest.takeWhile Option.isSome := by
        simp [List.takeWhile_cons]
      rw [ht]
      show scanCode rest (scanMappingInfix (lowerStr c) tagCodeImports d)
        = scanCode (rest.takeWhile Option.isSome)
            (scanMappingInfix (lowerStr c) tagCodeImports d)
      exact ih _

theorem detectedOf_takeWhile (md : Option ProjectMetadata)
    (rm : Option ResearchMetadata) (files : List (Option Str)) :
    detectedOf md rm files = detectedOf md rm (files.takeWhile Option.isSome) := by
  unfold detectedOf
  cases rm with
  | none => rw [scanCode_takeWhile]
  | some r => rw [scanCode_takeWhile]

/-- C7 (amended): an unreadable file is not fatal — detection returns
normally — but Scan C stops there: the detector's entire output equals
the output on the readable prefix of the file list, so files after the
first unreadable one contribute nothing. -/
theorem detect_technologies_stops_at_unreadable (md : Option ProjectMetadata)
    (rm : Option ResearchMetadata) (files : List (Option Str)) :
    detectTechnologies md rm files =
      detectTechnologies md rm (files.takeWhile Option.isSome) := by
  unfold detectTechnologies
  rw [← detectedOf_takeWhile]

/-- C7 (counterexample): with an unreadable file followed by a readable
file importing numpy, the source's Scan C (whose `try` wraps the whole
loop) detects nothing, while the claimed skip-and-continue scan detects
NumPy; the detector's technology list is empty where the claim requires
["NumPy"]. -/
theorem scan_c_abort_counterexample :
    scanCode [none, some ("import numpy".data)] [] = [] ∧
    scanCodeSpecC7 [none, some ("import numpy".data)] []
      = [("NumPy".data, [tagCodeImports])] ∧
    (detectTechnologies none none [none, some ("import numpy".data)]).1 = [] ∧
    (detectTechnologies none none [some ("import numpy".data)]).1
      = ["NumPy".data] := by decide

theorem analyzeProject_files_congr (d : ProjectDir) (files' : List SrcFile)
    (h : files'.filter (fun f => isPyName f.name)
        = d.files.filter (fun f => isPyName f.name)) :
    analyzeProject { d with files := files' } = analyzeProject d := by
  have hmeta : extractProjectMetadata { d with files := files' }
      = extractProjectMetadata d := rfl
  have hreadme : ({ d with files := files' } : ProjectDir).readme = d.readme := rfl
  have hfiles : ({ d with files := files' } : ProjectDir).files = files' := rfl
  simp only [analyzeProject, hmeta, hreadme, hfiles, h]

/-- C10: the file count, the code scan and the import scan all consider
exactly the `*.py`-named files under the root: the count is the number
of such files, restricting the listing to them changes nothing, and
adding a file whose name does not end in `.py` changes nothing. -/
theorem analysis_considers_only_py_files (d : ProjectDir) :
    (analyzeProject d).files_analyzed
      = (d.files.filter (fun f => isPyName f.name)).length ∧
    analyzeProject { d with files := d.files.filter (fun f => isPyName f.name) }
      = analyzeProject d ∧
    ∀ f : SrcFile, isPyName f.name = false →
      analyzeProject { d with files := d.files ++ [f] } = analyzeProject d := by
  refine ⟨rfl, ?_, ?_⟩
  · refine analyzeProject_files_congr d _ ?_
    rw [List.filter_filter]
    simp
  · intro f hf
    refine analyzeProject_files_congr d _ ?_
    rw [List.filter_append]
    simp [List.filter_cons, hf]

-- ===========================================================================
-- Section extractor: last-one-wins (C2) and classifier order (C3)
-- ===========================================================================

theorem alookup_dictSet_self (s : List (Str × Str)) (k v : Str) :
    alookup (dictSet s k v) k = some v := by
  induction s with
  | nil => simp [dictSet, alookup_cons]
  | cons p rest ih =>
    obtain ⟨k0, v0⟩ := p
    by_cases h : k0 = k
    · rw [dictSet, if_pos h, alookup_cons, if_pos rfl]
    · rw [dictSet, if_neg h, alookup_cons, if_neg (fun hh => h hh.symm), ih]

theorem foldl_sectionStep_body {h : Str} (hne : h ≠ []) :
    ∀ (body : List Str) (s : List (Str × Str)) (c : List Str),
      (∀ l ∈ body, headerMatch l = none) →
      body.foldl sectionStep ⟨s, some h, c⟩ = ⟨s, some h, c ++ body⟩ := by
  intro body
  induction body with
  | nil => intro s c _; simp
  | cons line rest ih =>
    intro s c hb
    rw [List.foldl_cons]
    have hstep : sectionStep ⟨s, some h, c⟩ line = ⟨s, some h, c ++ [line]⟩ := by
      unfold sectionStep
      rw [hb line (List.mem_cons_self _ _)]
      have : headerTruthy (some h) = true := by simp [headerTruthy, hne]
      rw [this]
      simp
    rw [hstep, ih _ _ (fun l hl => hb l (List.mem_cons_of_mem _ hl))]
    simp

/-- C2: last-one-wins for duplicated headings.  Whatever precedes the
final occurrence of a heading line, the extractor's entry for that
heading is the stripped body following the final occurrence; and the
concrete aggregate of `## Keywords\na\n## Keywords\nb` has keywords
bucket exactly ["b"]. -/
theorem extract_sections_last_one_wins :
    (∀ (content : Str) (p body2 : List Str) (hline h : Str),
      splitLines content = p ++ hline :: body2 →
      headerMatch hline = some h → h ≠ [] →
      (∀ l ∈ body2, headerMatch l = none) →
      alookup (extractSections content) h = some (stripWS (joinLines body2))) ∧
    (parseContent ("## Keywords\na\n## Keywords\nb".data)).keywords = [['b']] := by
  constructor
  · intro content p body2 hline h hsplit hheader hne hbody
    unfold extractSections
    rw [hsplit, List.foldl_append, List.foldl_cons]
    have hstep : sectionStep (p.foldl sectionStep ⟨[], none, []⟩) hline
        = ⟨saveSection (p.foldl sectionStep ⟨[], none, []⟩), some h, []⟩ := by
      unfold sectionStep
      rw [hheader]
    rw [hstep, foldl_sectionStep_body hne body2 _ _ hbody]
    have hsave : saveSection ⟨saveSection (p.foldl sectionStep ⟨[], none, []⟩),
        some h, [] ++ body2⟩
        = dictSet (saveSection (p.foldl sectionStep ⟨[], none, []⟩))
            h (stripWS (joinLines ([] ++ body2))) := by
      unfold saveSection
      have : headerTruthy (some h) = true := by simp [headerTruthy, hne]
      rw [this]
      simp
    rw [hsave]
    rw [alookup_dictSet_self]
    rw [List.nil_append]
  · decide

theorem findField_eq_find? :
    ∀ (l : List (Str × RField)) (hl : Str),
      findField l hl = (l.find? (fun pr => decide (pr.1 <:+: hl))).map Prod.snd := by
  intro l hl
  induction l with
  | nil => rfl
  | cons p rest ih =>
    obtain ⟨k, f⟩ := p
    by_cases h : k <:+: hl
    · rw [findField, if_pos h, List.find?_cons]
      simp [h]
    · rw [findField, if_neg h, List.find?_cons]
      simp only [decide_eq_true_eq]
      simp [h, ih]

/-- C3: the Section Classifier lower-cases the heading and returns the
bucket of the first synonym (in declared table order) that occurs as a
substring; "Research Focus Area" matches both "research focus" and
"focus area" yet classifies as research_focus, a cross-bucket tie such
as "Key Questions Tools" resolves to the earlier-declared synonym's
bucket, and an unmatched heading contributes to no bucket. -/
theorem section_classifier_first_synonym_wins :
    (∀ header : Str, classify header =
      (SECTION_MAPPING.find? (fun pr => decide (pr.1 <:+: lowerStr header))).map
        Prod.snd) ∧
    classify ("Research Focus Area".data) = some RField.research_focus ∧
    ("research focus".data, RField.research_focus) ∈ SECTION_MAPPING ∧
    ("focus area".data, RField.research_focus) ∈ SECTION_MAPPING ∧
    ("research focus".data <:+: lowerStr ("Research Focus Area".data)) ∧
    ("focus area".data <:+: lowerStr ("Research Focus Area".data)) ∧
    classify ("Key Questions Tools".data) = some RField.research_questions ∧
    ("tools".data, RField.technologies) ∈ SECTION_MAPPING ∧
    ("tools".data <:+: lowerStr ("Key Questions Tools".data)) ∧
    (∀ (header content : Str) (m : ResearchMetadata),
      classify header = none → processSection header content m = m) := by
  refine ⟨?_, by decide, by decide, by decide, by decide, by decide, by decide,
    by decide, by decide, ?_⟩
  · intro header
    exact findField_eq_find? SECTION_MAPPING (lowerStr header)
  · intro header content m hc
    unfold processSection
    rw [hc]

-- ===========================================================================
-- List-Item Normalizer properties (C4)
-- ===========================================================================

theorem dropWhile_idem {α : Type} (p : α → Bool) (l : List α) :
    (l.dropWhile p).dropWhile p = l.dropWhile p := by
  induction l with
  | nil => rfl
  | cons c rest ih =>
    by_cases h : p c
    · rw [List.dropWhile_cons, if_pos h]
      exact ih
    · rw [List.dropWhile_cons, if_neg h, List.dropWhile_cons, if_neg h]

theorem rstripWS_idem (s : Str) : rstripWS (rstripWS s) = rstripWS s := by
  unfold rstripWS
  rw [List.reverse_reverse, dropWhile_idem]

theorem rstripWS_prefix (s : Str) : rstripWS s <+: s := by
  rw [← List.reverse_suffix]
  unfold rstripWS
  rw [List.reverse_reverse]
  exact List.dropWhile_suffix _

theorem dropWhile_head_false {α : Type} {p : α → Bool} :
    ∀ {l : List α} {c : α} {rest : List α}, l.dropWhile p = c :: rest → p c = false := by
  intro l
  induction l with
  | nil => intro c rest h; simp at h
  | cons a l ih =>
    intro c rest h
    by_cases hp : p a
    · rw [List.dropWhile_cons, if_pos hp] at h
      exact ih h
    · rw [List.dropWhile_cons, if_neg hp] at h
      obtain ⟨rfl, -⟩ := List.cons.injEq .. ▸ h
      simpa using hp

theorem lstripWS_rstripWS_lstripWS (s : Str) :
    lstripWS (rstripWS (lstripWS s)) = rstripWS (lstripWS s) := by
  cases hu : rstripWS (lstripWS s) with
  | nil => rfl
  | cons c u =>
    have hpre : rstripWS (lstripWS s) <+: lstripWS s := rstripWS_prefix _
    rw [hu] at hpre
    obtain ⟨w, hw⟩ := hpre
    have hls : lstripWS s = c :: (u ++ w) := hw.symm
    have hfirst : pySpace c = false := by
      have : (s.dropWhile pySpace) = c :: (u ++ w) := hls
      exact dropWhile_head_false this
    unfold lstripWS
    rw [List.dropWhile_cons, if_neg (by simp [hfirst])]

theorem stripWS_idem (s : Str) : stripWS (stripWS s) = stripWS s := by
  unfold stripWS
  rw [lstripWS_rstripWS_lstripWS, rstripWS_idem]

theorem normLine_some {line x : Str} (h : normLine line = some x) :
    x ≠ [] ∧ stripWS x = x ∧ (['#'].isPrefixOf x) = false := by
  simp only [normLine] at h
  split at h
  · exact absurd h (by simp)
  · split at h
    next hguard =>
      rw [Option.some.injEq] at h
      subst h
      rw [Bool.and_eq_true] at hguard
      obtain ⟨h1, h2⟩ := hguard
      refine ⟨by simpa using h1, stripWS_idem _, by simpa using h2⟩
    next => exact absurd h (by simp)

theorem extractItems_foldl_eq (lines : List Str) :
    ∀ acc : List Str,
      lines.foldl (fun items line =>
        match normLine line with
        | some x => items ++ [x]
        | none => items) acc = acc ++ lines.filterMap normLine := by
  induction lines with
  | nil => intro acc; simp
  | cons line rest ih =>
    intro acc
    rw [List.foldl_cons, List.filterMap_cons]
    cases h : normLine line with
    | none => simp only [h]; rw [ih]
    | some x => simp only [h]; rw [ih]; simp

/-- C4 (amended): every item the List-Item Normalizer emits is non-empty
and already trimmed (hence non-empty after trimming) and does not begin
with a heading marker, and the item list is exactly the in-order
per-line normalisation of the input lines — order preserved, nothing
deduplicated.  The single-pass marker and markup removals can leave
residual bullets, links, code spans and emphasis pairs (see the
counterexample), so no stronger residual-free guarantee holds. -/
theorem extract_items_amended (content : Str) :
    (∀ x ∈ extractItems content,
      x ≠ [] ∧ stripWS x = x ∧ (['#'].isPrefixOf x) = false) ∧
    extractItems content = (splitLines content).filterMap normLine := by
  have he : extractItems content = (splitLines content).filterMap normLine := by
    unfold extractItems
    rw [extractItems_foldl_eq]
    rfl
  refine ⟨?_, he⟩
  intro x hx
  rw [he] at hx
  rcases List.mem_filterMap.mp hx with ⟨line, _, hsome⟩
  exact normLine_some hsome

/-- C4 (counterexample): the single input line
`- - [[t](u)](v)``x`y`**a*b*` yields the single item
`- [t](v)`xy`*ab*`, which begins with a list-bullet marker, contains the
markdown link `[t](v)`, contains the backtick code span `` `xy` `` and
contains the asterisk pair `*ab*` — falsifying the claimed absence of
residual markers after normalisation. -/
theorem extract_items_counterexample :
    extractItems ("- - [[t](u)](v)".data ++
        [backquote, backquote, 'x', backquote, 'y', backquote] ++ "**a*b*".data)
      = [("- [t](v)".data ++ [backquote, 'x', 'y', backquote] ++ "*ab*".data)] ∧
    (("- [t](v)".data ++ [backquote, 'x', 'y', backquote] ++ "*ab*".data).take 2
      = "- ".data) ∧
    ("[t](v)".data <:+:
      ("- [t](v)".data ++ [backquote, 'x', 'y', backquote] ++ "*ab*".data)) ∧
    ([backquote, 'x', 'y', backquote] <:+:
      ("- [t](v)".data ++ [backquote, 'x', 'y', backquote] ++ "*ab*".data)) ∧
    ("*ab*".data <:+:
      ("- [t](v)".data ++ [backquote, 'x', 'y', backquote] ++ "*ab*".data)) := by
  refine ⟨by decide, by decide, ?_, ?_, ?_⟩
  · exact ⟨"- ".data, [backquote, 'x', 'y', backquote] ++ "*ab*".data, by decide⟩
  · exact ⟨"- [t](v)".data, "*ab*".data, by decide⟩
  · exact ⟨"- [t](v)".data ++ [backquote, 'x', 'y', backquote], [], by decide⟩

-- ===========================================================================
-- Query Synthesizer (C5)
-- ===========================================================================

theorem foldl_snoc {α : Type} (g : α → Str) (l : List α) :
    ∀ acc : List Str, l.foldl (fun qs x => qs ++ [g x]) acc = acc ++ l.map g := by
  induction l with
  | nil => intro acc; simp
  | cons x rest ih =>
    intro acc
    rw [List.foldl_cons, ih]
    simp

theorem foldl_pair_snoc (h : Str → Str → Str) (l2 : List Str) (l1 : List Str) :
    ∀ acc : List Str,
      l1.foldl (fun qs me => l2.foldl (fun qs f => qs ++ [h me f]) qs) acc
        = acc ++ l1.flatMap (fun me => l2.map (h me)) := by
  induction l1 with
  | nil => intro acc; simp
  | cons me rest ih =>
    intro acc
    rw [List.foldl_cons, foldl_snoc (h me) l2, ih]
    simp

/-- The Query Synthesizer as the (amended) specification words it:
research_focus verbatim, then each research question with every trailing
question mark stripped and whitespace trimmed, then the first-3-keywords
string when at least 2 keywords exist, then the first-2 × first-2
methodology–focus pairs when both buckets are non-empty. -/
def researchQueriesSpec (m : ResearchMetadata) : List Str :=
  m.research_focus
  ++ m.research_questions.map (fun q => stripWS (rstripQ q))
  ++ (if m.keywords.length ≥ 2 then [joinSpace (m.keywords.take 3)] else [])
  ++ (if m.methodology ≠ [] ∧ m.research_focus ≠ [] then
        (m.methodology.take 2).flatMap
          (fun me => (m.research_focus.take 2).map (fun f => me ++ [' '] ++ f))
      else [])

/-- C5 (amended): `extract_research_queries` emits exactly the fixed
priority concatenation, with research questions stripped of all their
trailing question marks (not just one). -/
theorem extract_research_queries_amended (m : ResearchMetadata) :
    extractResearchQueries m = researchQueriesSpec m := by
  simp only [extractResearchQueries, researchQueriesSpec]
  rw [foldl_snoc (fun q => stripWS (rstripQ q)) m.research_questions,
    foldl_pair_snoc (fun me f => me ++ [' '] ++ f) (m.research_focus.take 2)
      (m.methodology.take 2)]
  by_cases hme : m.methodology = [] <;> by_cases hf : m.research_focus = [] <;>
    by_cases h2 : m.keywords.length ≥ 2 <;>
    simp [hme, hf, h2, List.append_assoc]

/-- What the original claim demands of clause (2): exactly one trailing
question mark stripped, then whitespace trimmed. -/
def stripOneQmark (q : Str) : Str :=
  stripWS (if q.getLast? = some '?' then q.dropLast else q)

/-- The claimed synthesizer (identical except for clause (2)). -/
def researchQueriesOneQmark (m : ResearchMetadata) : List Str :=
  m.research_focus
  ++ m.research_questions.map stripOneQmark
  ++ (if m.keywords.length ≥ 2 then [joinSpace (m.keywords.take 3)] else [])
  ++ (if m.methodology ≠ [] ∧ m.research_focus ≠ [] then
        (m.methodology.take 2).flatMap
          (fun me => (m.research_focus.take 2).map (fun f => me ++ [' '] ++ f))
      else [])

/-- C5 (counterexample): on the question "What??" the program emits
"What" (every trailing question mark is stripped by `rstrip("?")`),
while the claim demands "What?" (all but one kept). -/
theorem extract_research_queries_counterexample :
    extractResearchQueries { emptyRM with research_questions := ["What??".data] }
      = ["What".data] ∧
    researchQueriesOneQmark { emptyRM with research_questions := ["What??".data] }
      = ["What?".data] ∧
    extractResearchQueries { emptyRM with research_questions := ["What??".data] }
      ≠ researchQueriesOneQmark { emptyRM with research_questions := ["What??".data] } := by
  refine ⟨by decide, by decide, by decide⟩

-- ===========================================================================
-- Manifest priority (C6) and precondition gate (C8)
-- ===========================================================================

/-- C6: exactly one manifest source is used per run, tried in the fixed
priority pyproject.toml (full metadata) > setup.py (name, keywords and
description only) > requirements.txt (dependencies only, name falling
back to the directory name) > bare default carrying only the directory
name; a later source is consulted only when every earlier one yields no
metadata. -/
theorem manifest_priority_order (d : ProjectDir) :
    (∀ t, d.pyproject = some t →
      extractProjectMetadata d =
        { name := t.name.getD d.dirName
          keywords := t.keywords.getD []
          dependencies := t.dependencies.getD []
          dev_dependencies := t.devDependencies.getD []
          description := t.description.getD []
          version := t.version.getD [] }) ∧
    (d.pyproject = none → ∀ s, d.setupPy = some s →
      extractProjectMetadata d =
        { name := s.nameMatch.getD d.dirName
          keywords :=
            (match s.keywordsMatch with
             | none => []
             | some g => (List.splitOn ',' g).map (stripChars [' ', '"', singleQuote]))
          dependencies := []
          dev_dependencies := []
          description := s.descMatch.getD []
          version := [] }) ∧
    (d.pyproject = none → d.setupPy = none → extractFromRequirements d ≠ [] →
      extractProjectMetadata d =
        { name := d.dirName, dependencies := extractFromRequirements d }) ∧
    (d.pyproject = none → d.setupPy = none → extractFromRequirements d = [] →
      extractProjectMetadata d = { name := d.dirName }) := by
  refine ⟨?_, ?_, ?_, ?_⟩
  · intro t ht
    simp [extractProjectMetadata, extractFromPyproject, ht]
  · intro hp s hs
    simp [extractProjectMetadata, extractFromPyproject, extractFromSetupPy, hp, hs]
  · intro hp hs hr
    simp only [extractProjectMetadata, extractFromPyproject, extractFromSetupPy,
      hp, hs, Option.map_none']
    rw [if_pos hr]
  · intro hp hs hr
    simp only [extractProjectMetadata, extractFromPyproject, extractFromSetupPy,
      hp, hs, Option.map_none']
    rw [if_neg (by simp [hr])]

/-- C8: calling suggestion or report generation before an analysis has
been run signals the precondition-violation error (whose message names
`analyze_project`), not a crash or a silently empty result; after
`analyze_project` has run, both calls succeed — and `analyze_project`
itself is a total function of the project directory, so the
orchestration call never fails this way. -/
theorem precondition_gate :
    suggestImprovements none = .error preconditionMsg ∧
    generateReport none = .error preconditionMsg ∧
    ("analyze_project".data <:+: preconditionMsg) ∧
    (∀ d : ProjectDir,
      suggestImprovements (some (analyzeProject d))
        = .ok (buildSuggestions (analyzeProject d))) ∧
    (∀ d : ProjectDir, ∃ r, generateReport (some (analyzeProject d)) = .ok r) := by
  refine ⟨rfl, rfl, ?_, fun d => rfl, fun d => ⟨_, rfl⟩⟩
  exact ⟨"Execute ".data, "() primeiro".data, by decide⟩

-- ===========================================================================
-- Witnesses
-- ===========================================================================

theorem extract_sections_last_one_wins_witness :
    alookup (extractSections ("## Keywords\nb".data)) ("Keywords".data)
      = some (stripWS (joinLines [['b']])) :=
  extract_sections_last_one_wins.1 ("## Keywords\nb".data) [] [['b']]
    ("## Keywords".data) ("Keywords".data) (by decide) (by decide) (by decide)
    (by decide)

theorem section_classifier_first_synonym_wins_witness :
    processSection ("Zebra".data) ['x'] emptyRM = emptyRM :=
  section_classifier_first_synonym_wins.2.2.2.2.2.2.2.2.2
    ("Zebra".data) ['x'] emptyRM (by decide)

theorem extract_items_amended_witness :
    ("alpha".data ≠ [] ∧ stripWS ("alpha".data) = "alpha".data ∧
      (['#'].isPrefixOf ("alpha".data)) = false) ∧
    extractItems ("- alpha".data)
      = (splitLines ("- alpha".data)).filterMap normLine :=
  ⟨(extract_items_amended ("- alpha".data)).1 ("alpha".data) (by decide),
   (extract_items_amended ("- alpha".data)).2⟩

theorem manifest_priority_order_witness :
    extractProjectMetadata
        { dirName := "proj".data, pyproject := none, setupPy := none
          requirements := some ("numpy".data), readme := none, files := [] }
      = { name := "proj".data, dependencies := ["numpy".data] } := by
  have h := (manifest_priority_order
    { dirName := "proj".data, pyproject := none, setupPy := none
      requirements := some ("numpy".data), readme := none, files := [] }).2.2.1
    rfl rfl (by decide)
  rw [h]
  decide

theorem analyze_project_deterministic_witness :
    analyzeProject
        { dirName := ['p'],
          files := [⟨"a.py".data, some ("import numpy".data)⟩,
                    ⟨"b.py".data, some []⟩] }
      = analyzeProject
        { dirName := ['p'],
          files := [⟨"b.py".data, some []⟩,
                    ⟨"a.py".data, some ("import numpy".data)⟩] } :=
  analyze_project_deterministic
    { dirName := ['p'],
      files := [⟨"a.py".data, some ("import numpy".data)⟩, ⟨"b.py".data, some []⟩] }
    [⟨"b.py".data, some []⟩, ⟨"a.py".data, some ("import numpy".data)⟩]
    (by decide) (by decide)

theorem analysis_considers_only_py_files_witness :
    analyzeProject
        { dirName := ['p'],
          files := [⟨"a.py".data, some []⟩, ⟨"README.md".data, some []⟩] }
      = analyzeProject { dirName := ['p'], files := [⟨"a.py".data, some []⟩] } :=
  (analysis_considers_only_py_files
    { dirName := ['p'], files := [⟨"a.py".data, some []⟩] }).2.2
    ⟨"README.md".data, some []⟩ (by decide)

theorem detect_technologies_result_invariants_witness :
    "NumPy".data ∈ TECH_MAPPING.map Prod.snd :=
  (detect_technologies_result_invariants none none
    [some ("import numpy".data)]).2.2.2.1 ("NumPy".data) (by decide)
